import Mathlib

/-!
Shallow embedding of the Concordium auction smart contract (`src/src/lib.rs`),
together with proofs about its guarded state transitions.

Modelling conventions:
* `AccountAddress` (a 32-byte key hash in the source) is modelled as `Nat`:
  only equality of identities matters to the contract logic.
* `Timestamp` (`slot_time`, `end`) is modelled as `Nat` (milliseconds).
* `Amount` (a `u64` of micro CCD) is modelled as `Nat`, with the one
  subtraction the source performs (`balance - amount`, line 129) embedded as
  wrapping 64-bit subtraction `u64_sub` with an explicit `% 2 ^ 64`.
* The host (`HasHost`) is modelled by passing `self_balance` as an explicit
  argument; `invoke_transfer` calls are collected into an explicit list of
  `Transfer` effects returned alongside the new state.
* Each receive function returns `(new state, transfers, result)`; the Rust
  `ensure!`/`bail!` early returns become nested conditionals that return the
  unchanged state with the corresponding error.
-/

namespace Auction

/-- Modulus of the 64-bit machine integers underlying `Amount`. -/
def U64_MOD : Nat := 2 ^ 64

/-- Wrapping `u64` subtraction, as performed by `Amount - Amount` on the
micro-CCD representation in the source (line 129). -/
def u64_sub (a b : Nat) : Nat := (a + U64_MOD - b) % U64_MOD

/-- The state of the auction: still accepting bids (`Continue`), or the item
has been sold to the highest bid's owner (`Sold`). Mirrors `enum AuctionState`. -/
inductive AuctionState where
  | Continue : AuctionState
  | Sold : Nat → AuctionState
deriving DecidableEq, Repr

/-- The persisted state of the smart contract. Mirrors `struct State`.
The Rust field `end` is a Lean keyword, so it is named `endTime` here. -/
structure State where
  auction_state : AuctionState
  highest_bidder : Option Nat
  item : String
  endTime : Nat
deriving DecidableEq, Repr

/-- Input of the init function. Mirrors `struct InitParameter`. -/
structure InitParameter where
  item : String
  endTime : Nat
deriving DecidableEq, Repr

/-- The sender of a message: a contract instance or an end-user account.
Mirrors `concordium_std::Address`. -/
inductive Address where
  | Contract : Nat → Address
  | Account : Nat → Address
deriving DecidableEq, Repr

/-- Errors of the bid function. Mirrors `enum BidError`. -/
inductive BidError where
  | OnlyAccount : BidError
  | BidMore : BidError
  | BidTooLate : BidError
  | AuctionFinalizedButBidded : BidError
deriving DecidableEq, Repr

/-- Errors of the finalize function. Mirrors `enum FinalizeError`. -/
inductive FinalizeError where
  | AuctionStillActive : FinalizeError
  | AuctionAlreadyFinalized : FinalizeError
deriving DecidableEq, Repr

/-- Outcome of a fallible receive function, `Rust Result<(), E>`. -/
inductive Result (ε : Type) where
  | ok : Result ε
  | error : ε → Result ε
deriving DecidableEq, Repr

/-- An outbound CCD transfer requested through `host.invoke_transfer`. -/
structure Transfer where
  recipient : Nat
  amount : Nat
deriving DecidableEq, Repr

/-- The parts of the receive context the contract reads: `ctx.sender()`,
`ctx.metadata().slot_time()` and `ctx.owner()`. -/
structure ReceiveContext where
  sender : Address
  slot_time : Nat
  owner : Nat
deriving DecidableEq, Repr

/-- `auction_init` (lines 83–97): builds the initial contract state from the
init parameter. -/
def auction_init (param : InitParameter) : State :=
  { auction_state := AuctionState.Continue
    highest_bidder := none
    item := param.item
    endTime := param.endTime }

/-- `auction_bid` (lines 101–139). `balance` is `host.self_balance()`, which by
host semantics already includes the `amount` attached to the call. Guard order
as in the source: auction-state check, slot-time check, sender check, amount
check. Returns the new state, the requested transfers, and the result. -/
def auction_bid (ctx : ReceiveContext) (st : State) (balance amount : Nat) :
    State × List Transfer × Result BidError :=
  if st.auction_state = AuctionState.Continue then
    if ctx.slot_time ≤ st.endTime then
      match ctx.sender with
      | Address.Contract _ => (st, [], Result.error BidError.OnlyAccount)
      | Address.Account sender_address =>
        let balance_before_latest_bid := u64_sub balance amount
        if amount > balance_before_latest_bid then
          match st.highest_bidder with
          | some account_address =>
            ({ st with highest_bidder := some sender_address },
              [⟨account_address, balance_before_latest_bid⟩], Result.ok)
          | none =>
            ({ st with highest_bidder := some sender_address }, [], Result.ok)
        else (st, [], Result.error BidError.BidMore)
    else (st, [], Result.error BidError.BidTooLate)
  else (st, [], Result.error BidError.AuctionFinalizedButBidded)

/-- `auction_finalize` (lines 164–190). `balance` is `host.self_balance()` at
the moment of the call. -/
def auction_finalize (ctx : ReceiveContext) (st : State) (balance : Nat) :
    State × List Transfer × Result FinalizeError :=
  if st.auction_state = AuctionState.Continue then
    if ctx.slot_time > st.endTime then
      match st.highest_bidder with
      | some account_address =>
        ({ st with auction_state := AuctionState.Sold account_address },
          [⟨ctx.owner, balance⟩], Result.ok)
      | none => (st, [], Result.ok)
    else (st, [], Result.error FinalizeError.AuctionStillActive)
  else (st, [], Result.error FinalizeError.AuctionAlreadyFinalized)

/-- `view` (lines 144–149): read-only projection of the state. -/
def view (st : State) : State := st

/-- `view_highest_bid` (lines 152–157): returns `host.self_balance()`. -/
def view_highest_bid (balance : Nat) : Nat := balance

/-- A single invocation of one of the two mutating receive functions, with the
host-supplied context and balance it observes. -/
inductive Op where
  | bid : ReceiveContext → Nat → Nat → Op
  | finalize : ReceiveContext → Nat → Op

/-- The state reached after one invocation (effects and result discarded). -/
def applyOp (op : Op) (st : State) : State :=
  match op with
  | Op.bid ctx balance amount => (auction_bid ctx st balance amount).1
  | Op.finalize ctx balance => (auction_finalize ctx st balance).1

/-- Wrapping subtraction agrees with exact subtraction when it cannot
underflow. -/
theorem u64_sub_eq_sub (a b : Nat) (hle : b ≤ a) (hlt : a < U64_MOD) :
    u64_sub a b = a - b := by
  have h1 : a + U64_MOD - b = (a - b) + U64_MOD := by omega
  rw [u64_sub, h1, Nat.add_mod_right]
  exact Nat.mod_eq_of_lt (by omega)

/-- C1: counterexample — with phase `Continue`, a contract sender, and the slot
time strictly past the close time, `auction_bid` fails with `BidTooLate`, not
with `OnlyAccount`: the source checks the time guard (line 118) before the
sender guard (lines 121–124), contrary to the order the claim states. -/
theorem bid_guard_order_counterexample :
    (auction_bid ⟨Address.Contract 0, 5, 0⟩
        ⟨AuctionState.Continue, none, "item", 1⟩ 10 10).2.2 =
      Result.error BidError.BidTooLate ∧
    (auction_bid ⟨Address.Contract 0, 5, 0⟩
        ⟨AuctionState.Continue, none, "item", 1⟩ 10 10).2.2 ≠
      Result.error BidError.OnlyAccount := by
  constructor
  · decide
  · decide

/-- C1 (amended): `auction_bid` checks its guards in the order (1) phase is
`Continue`, (2) `slot_time ≤ endTime`, (3) the sender is an account, (4) the
amount strictly exceeds the pre-bid balance `u64_sub balance amount`; the
first failing guard determines the returned error. In particular a contract
sender bidding after the close time receives `BidTooLate`. -/
theorem bid_guard_order (ctx : ReceiveContext) (st : State) (balance amount : Nat) :
    (st.auction_state ≠ AuctionState.Continue →
      auction_bid ctx st balance amount =
        (st, [], Result.error BidError.AuctionFinalizedButBidded)) ∧
    (st.auction_state = AuctionState.Continue → st.endTime < ctx.slot_time →
      auction_bid ctx st balance amount =
        (st, [], Result.error BidError.BidTooLate)) ∧
    (st.auction_state = AuctionState.Continue → ctx.slot_time ≤ st.endTime →
      ∀ c, ctx.sender = Address.Contract c →
        auction_bid ctx st balance amount =
          (st, [], Result.error BidError.OnlyAccount)) ∧
    (st.auction_state = AuctionState.Continue → ctx.slot_time ≤ st.endTime →
      ∀ a, ctx.sender = Address.Account a → amount ≤ u64_sub balance amount →
        auction_bid ctx st balance amount =
          (st, [], Result.error BidError.BidMore)) ∧
    (st.auction_state = AuctionState.Continue → ctx.slot_time ≤ st.endTime →
      ∀ a, ctx.sender = Address.Account a → u64_sub balance amount < amount →
        (auction_bid ctx st balance amount).2.2 = Result.ok) := by
  refine ⟨?_, ?_, ?_, ?_, ?_⟩
  · intro h
    simp [auction_bid, h]
  · intro h1 h2
    simp [auction_bid, h1, Nat.not_le.mpr h2]
  · intro h1 h2 c hc
    simp [auction_bid, h1, h2, hc]
  · intro h1 h2 a ha hle
    simp [auction_bid, h1, h2, ha, Nat.not_lt.mpr hle]
  · intro h1 h2 a ha hlt
    cases hb : st.highest_bidder <;>
      simp [auction_bid, h1, h2, ha, hlt, hb]

/-- C1 witness: a contract sender bidding at slot time 5 in an auction closing
at time 1 is rejected with `BidTooLate`. -/
theorem bid_guard_order_witness :
    auction_bid ⟨Address.Contract 0, 5, 0⟩
        ⟨AuctionState.Continue, none, "item", 1⟩ 10 10 =
      (⟨AuctionState.Continue, none, "item", 1⟩, [],
        Result.error BidError.BidTooLate) :=
  (bid_guard_order ⟨Address.Contract 0, 5, 0⟩
    ⟨AuctionState.Continue, none, "item", 1⟩ 10 10).2.1 rfl (by decide)

/-- C2: counterexample — on a record with no accepted bid, a first finalize
call past the close time succeeds, and a second finalize call on the resulting
record succeeds again instead of failing with `AuctionAlreadyFinalized`. -/
theorem single_settlement_counterexample :
    (auction_finalize ⟨Address.Account 0, 2, 7⟩
        ⟨AuctionState.Continue, none, "item", 1⟩ 0).2.2 = Result.ok ∧
    (auction_finalize ⟨Address.Account 0, 2, 7⟩
        (auction_finalize ⟨Address.Account 0, 2, 7⟩
          ⟨AuctionState.Continue, none, "item", 1⟩ 0).1 0).2.2 = Result.ok ∧
    (auction_finalize ⟨Address.Account 0, 2, 7⟩
        (auction_finalize ⟨Address.Account 0, 2, 7⟩
          ⟨AuctionState.Continue, none, "item", 1⟩ 0).1 0).2.2 ≠
      Result.error FinalizeError.AuctionAlreadyFinalized := by
  refine ⟨by decide, by decide, by decide⟩

/-- C2 (amended): the phase moves from `Continue` to `Sold` at most once —
any finalize on a `Sold` record is rejected with `AuctionAlreadyFinalized`
and changes nothing — and after a successful finalize of a record that had a
highest bidder, every further finalize call fails with
`AuctionAlreadyFinalized`, performs no transfer and leaves the record
unchanged. (If no bid was ever accepted, a successful finalize leaves the
phase `Continue` and a second call succeeds again; see the C9 theorem.) -/
theorem single_settlement (ctx ctx' : ReceiveContext) (st : State)
    (balance balance' : Nat) :
    (∀ v, st.auction_state = AuctionState.Sold v →
      auction_finalize ctx st balance =
        (st, [], Result.error FinalizeError.AuctionAlreadyFinalized)) ∧
    (∀ w, st.highest_bidder = some w →
      (auction_finalize ctx st balance).2.2 = Result.ok →
      (auction_finalize ctx' (auction_finalize ctx st balance).1 balance').2.2 =
        Result.error FinalizeError.AuctionAlreadyFinalized ∧
      (auction_finalize ctx' (auction_finalize ctx st balance).1 balance').2.1 = [] ∧
      (auction_finalize ctx' (auction_finalize ctx st balance).1 balance').1 =
        (auction_finalize ctx st balance).1) := by
  constructor
  · intro v hv
    simp [auction_finalize, hv]
  · intro w hw hok
    by_cases hopen : st.auction_state = AuctionState.Continue
    · by_cases ht : st.endTime < ctx.slot_time
      · have hst : (auction_finalize ctx st balance).1 =
            { st with auction_state := AuctionState.Sold w } := by
          simp [auction_finalize, hopen, ht, hw]
        rw [hst]
        refine ⟨?_, ?_, ?_⟩ <;> simp [auction_finalize]
      · exfalso
        simp [auction_finalize, hopen, ht] at hok
    · exfalso
      simp [auction_finalize, hopen] at hok

/-- C2 witness: after the auction with highest bidder 4 is finalized at slot
time 2, a second finalize at slot time 3 fails with
`AuctionAlreadyFinalized` and requests no transfer. -/
theorem single_settlement_witness :
    (auction_finalize ⟨Address.Account 0, 3, 9⟩
        (auction_finalize ⟨Address.Account 0, 2, 9⟩
          ⟨AuctionState.Continue, some 4, "item", 1⟩ 10).1 10).2.2 =
      Result.error FinalizeError.AuctionAlreadyFinalized ∧
    (auction_finalize ⟨Address.Account 0, 3, 9⟩
        (auction_finalize ⟨Address.Account 0, 2, 9⟩
          ⟨AuctionState.Continue, some 4, "item", 1⟩ 10).1 10).2.1 = [] ∧
    (auction_finalize ⟨Address.Account 0, 3, 9⟩
        (auction_finalize ⟨Address.Account 0, 2, 9⟩
          ⟨AuctionState.Continue, some 4, "item", 1⟩ 10).1 10).1 =
      (auction_finalize ⟨Address.Account 0, 2, 9⟩
        ⟨AuctionState.Continue, some 4, "item", 1⟩ 10).1 :=
  (single_settlement ⟨Address.Account 0, 2, 9⟩ ⟨Address.Account 0, 3, 9⟩
    ⟨AuctionState.Continue, some 4, "item", 1⟩ 10 10).2 4 rfl (by decide)

/-- C3: for an open auction, an account sender bidding in time, under the host
guarantee that `balance` (a `u64`) already contains the attached `amount`, the
bid succeeds iff the attached amount strictly exceeds the pre-transfer
escrowed balance `balance - amount`; for any value `prev` equal to that
escrowed balance (by the external invariant, the previous highest bid) the
test is equivalent to `prev < amount`, and a tie is rejected with `BidMore`. -/
theorem bid_amount_guard (ctx : ReceiveContext) (st : State) (balance amount a : Nat)
    (hopen : st.auction_state = AuctionState.Continue)
    (htime : ctx.slot_time ≤ st.endTime)
    (hsender : ctx.sender = Address.Account a)
    (hle : amount ≤ balance) (hu : balance < U64_MOD) :
    ((auction_bid ctx st balance amount).2.2 = Result.ok ↔
      balance - amount < amount) ∧
    (∀ prev : Nat, balance - amount = prev →
      ((auction_bid ctx st balance amount).2.2 = Result.ok ↔ prev < amount)) ∧
    (amount = balance - amount →
      (auction_bid ctx st balance amount).2.2 = Result.error BidError.BidMore) := by
  have hsub := u64_sub_eq_sub balance amount hle hu
  have hmain : (auction_bid ctx st balance amount).2.2 = Result.ok ↔
      balance - amount < amount := by
    by_cases hamt : u64_sub balance amount < amount
    · have hx : balance - amount < amount := by rw [← hsub]; exact hamt
      cases hb : st.highest_bidder <;>
        simp [auction_bid, hopen, htime, hsender, hamt, hb, hx]
    · have hx : ¬ balance - amount < amount := by rw [← hsub]; exact hamt
      simp [auction_bid, hopen, htime, hsender, hamt, hx]
  refine ⟨hmain, ?_, ?_⟩
  · intro prev hprev
    rw [hprev] at hmain
    exact hmain
  · intro htie
    have hx : ¬ u64_sub balance amount < amount := by rw [hsub]; omega
    simp [auction_bid, hopen, htime, hsender, hx]

/-- C3 witness: with escrowed balance 10 after attaching an amount of 5 (so the
previous highest bid is 5), a tying bid of 5 does not succeed and is rejected
with `BidMore`. -/
theorem bid_amount_guard_witness :
    ((auction_bid ⟨Address.Account 7, 0, 3⟩
        ⟨AuctionState.Continue, some 2, "item", 1⟩ 10 5).2.2 =
      Result.ok ↔ 10 - 5 < 5) ∧
    (auction_bid ⟨Address.Account 7, 0, 3⟩
        ⟨AuctionState.Continue, some 2, "item", 1⟩ 10 5).2.2 =
      Result.error BidError.BidMore := by
  have h := bid_amount_guard ⟨Address.Account 7, 0, 3⟩
    ⟨AuctionState.Continue, some 2, "item", 1⟩ 10 5 7
    rfl (by decide) rfl (by decide) (by decide)
  exact ⟨h.1, h.2.2 (by decide)⟩

/-- C4: for an open auction, the bid call fails with `BidTooLate` exactly when
`endTime < slot_time`, the finalize call fails with `AuctionStillActive`
exactly when `slot_time ≤ endTime`, and at the boundary `slot_time = endTime`
finalize fails with `AuctionStillActive` while bid does not fail with
`BidTooLate`: the two time windows are disjoint and exhaustive. -/
theorem time_gating (ctx : ReceiveContext) (st : State) (balance amount : Nat)
    (hopen : st.auction_state = AuctionState.Continue) :
    ((auction_bid ctx st balance amount).2.2 = Result.error BidError.BidTooLate ↔
      st.endTime < ctx.slot_time) ∧
    ((auction_finalize ctx st balance).2.2 =
        Result.error FinalizeError.AuctionStillActive ↔
      ctx.slot_time ≤ st.endTime) ∧
    (ctx.slot_time = st.endTime →
      (auction_finalize ctx st balance).2.2 =
        Result.error FinalizeError.AuctionStillActive ∧
      (auction_bid ctx st balance amount).2.2 ≠
        Result.error BidError.BidTooLate) := by
  have hbid : (auction_bid ctx st balance amount).2.2 =
      Result.error BidError.BidTooLate ↔ st.endTime < ctx.slot_time := by
    by_cases ht : ctx.slot_time ≤ st.endTime
    · constructor
      · intro h
        exfalso
        cases hs : ctx.sender with
        | Contract c => simp [auction_bid, hopen, ht, hs] at h
        | Account a =>
          by_cases hamt : u64_sub balance amount < amount
          · cases hb : st.highest_bidder <;>
              simp [auction_bid, hopen, ht, hs, hamt, hb] at h
          · simp [auction_bid, hopen, ht, hs, hamt] at h
      · intro h
        exact ((Nat.not_lt.mpr ht) h).elim
    · have hlt : st.endTime < ctx.slot_time := Nat.not_le.mp ht
      simp [auction_bid, hopen, ht, hlt]
  have hfin : (auction_finalize ctx st balance).2.2 =
      Result.error FinalizeError.AuctionStillActive ↔
      ctx.slot_time ≤ st.endTime := by
    by_cases ht : st.endTime < ctx.slot_time
    · constructor
      · intro h
        exfalso
        cases hb : st.highest_bidder <;>
          simp [auction_finalize, hopen, ht, hb] at h
      · intro h
        exact ((Nat.not_lt.mpr h) ht).elim
    · have hle : ctx.slot_time ≤ st.endTime := Nat.not_lt.mp ht
      simp [auction_finalize, hopen, ht, hle]
  refine ⟨hbid, hfin, fun heq => ⟨hfin.mpr (le_of_eq heq), fun h => ?_⟩⟩
  have := hbid.mp h
  omega

/-- C4 witness: at the boundary slot time equal to the close time 1, finalize
fails with `AuctionStillActive` while a bid is not rejected as too late. -/
theorem time_gating_witness :
    (auction_finalize ⟨Address.Account 0, 1, 0⟩
        ⟨AuctionState.Continue, some 2, "item", 1⟩ 5).2.2 =
      Result.error FinalizeError.AuctionStillActive ∧
    (auction_bid ⟨Address.Account 0, 1, 0⟩
        ⟨AuctionState.Continue, some 2, "item", 1⟩ 5 3).2.2 ≠
      Result.error BidError.BidTooLate :=
  (time_gating ⟨Address.Account 0, 1, 0⟩
    ⟨AuctionState.Continue, some 2, "item", 1⟩ 5 3 rfl).2.2 rfl

/-- C5: on a successful bid (open auction, account sender in time, amount
strictly above the pre-bid escrowed balance, `balance` a `u64` containing the
attached amount), exactly one refund transfer of exactly the pre-bid escrowed
balance `balance - amount` is requested to the previous highest bidder when
one exists, and no transfer is requested when none exists. -/
theorem bid_refund (ctx : ReceiveContext) (st : State) (balance amount a : Nat)
    (hopen : st.auction_state = AuctionState.Continue)
    (htime : ctx.slot_time ≤ st.endTime)
    (hsender : ctx.sender = Address.Account a)
    (hle : amount ≤ balance) (hu : balance < U64_MOD)
    (hwin : balance - amount < amount) :
    (auction_bid ctx st balance amount).2.2 = Result.ok ∧
    (∀ prev, st.highest_bidder = some prev →
      (auction_bid ctx st balance amount).2.1 = [⟨prev, balance - amount⟩]) ∧
    (st.highest_bidder = none →
      (auction_bid ctx st balance amount).2.1 = []) := by
  have hsub := u64_sub_eq_sub balance amount hle hu
  have hwin' : u64_sub balance amount < amount := by rw [hsub]; exact hwin
  refine ⟨?_, ?_, ?_⟩
  · cases hb : st.highest_bidder <;>
      simp [auction_bid, hopen, htime, hsender, hwin', hb]
  · intro prev hb
    simp [auction_bid, hopen, htime, hsender, hwin', hb, hsub, hwin]
  · intro hb
    simp [auction_bid, hopen, htime, hsender, hwin', hb]

/-- C5 witness: account 9 outbids the previous highest bidder 4 with 15 against
an escrowed balance of 10; exactly one refund of 10 to bidder 4 is requested. -/
theorem bid_refund_witness :
    (auction_bid ⟨Address.Account 9, 0, 0⟩
        ⟨AuctionState.Continue, some 4, "item", 2⟩ 25 15).2.2 = Result.ok ∧
    (auction_bid ⟨Address.Account 9, 0, 0⟩
        ⟨AuctionState.Continue, some 4, "item", 2⟩ 25 15).2.1 =
      [⟨4, 25 - 15⟩] := by
  have h := bid_refund ⟨Address.Account 9, 0, 0⟩
    ⟨AuctionState.Continue, some 4, "item", 2⟩ 25 15 9
    rfl (by decide) rfl (by decide) (by decide) (by decide)
  exact ⟨h.1, h.2.1 4 rfl⟩

/-- C6: on a successful finalize with a highest bidder `w` (open auction, slot
time past the close time), the phase becomes `Sold w` for exactly that `w`,
all other record fields are unchanged, and exactly one transfer of the full
escrowed balance is requested to the contract owner. -/
theorem finalize_payout (ctx : ReceiveContext) (st : State) (balance w : Nat)
    (hopen : st.auction_state = AuctionState.Continue)
    (htime : st.endTime < ctx.slot_time)
    (hw : st.highest_bidder = some w) :
    auction_finalize ctx st balance =
      ({ st with auction_state := AuctionState.Sold w },
        [⟨ctx.owner, balance⟩], Result.ok) := by
  simp [auction_finalize, hopen, htime, hw]

/-- C6 witness: finalizing at slot time 2 an auction closed at time 1 with
highest bidder 4 and escrowed balance 15 marks the item sold to 4 and pays 15
to the owner 9. -/
theorem finalize_payout_witness :
    auction_finalize ⟨Address.Account 0, 2, 9⟩
        ⟨AuctionState.Continue, some 4, "item", 1⟩ 15 =
      (⟨AuctionState.Sold 4, some 4, "item", 1⟩, [⟨9, 15⟩], Result.ok) :=
  finalize_payout ⟨Address.Account 0, 2, 9⟩
    ⟨AuctionState.Continue, some 4, "item", 1⟩ 15 4 rfl (by decide) rfl

/-- C7: invariants of the state machine. Creation (`auction_init`) always
produces phase `Continue` with no highest bidder; a record whose phase is
`Sold` is left literally unchanged by every operation (so `Continue → Sold`
happens at most once and `Sold → Continue` never); and whenever an operation
changes `highest_bidder`, the phase was `Continue`, the operation was a bid by
an account sender whose amount strictly exceeds the pre-bid escrowed balance,
and the new highest bidder is that sender. -/
theorem phase_and_bidder_invariant (op : Op) (st : State) :
    (∀ p : InitParameter, (auction_init p).auction_state = AuctionState.Continue ∧
      (auction_init p).highest_bidder = none) ∧
    (∀ w, st.auction_state = AuctionState.Sold w → applyOp op st = st) ∧
    ((applyOp op st).highest_bidder ≠ st.highest_bidder →
      st.auction_state = AuctionState.Continue ∧
      ∃ ctx balance amount a, op = Op.bid ctx balance amount ∧
        ctx.sender = Address.Account a ∧
        u64_sub balance amount < amount ∧
        (applyOp op st).highest_bidder = some a) := by
  refine ⟨fun p => ⟨rfl, rfl⟩, ?_, ?_⟩
  · intro w hw
    cases op with
    | bid ctx bal amt => simp [applyOp, auction_bid, hw]
    | finalize ctx bal => simp [applyOp, auction_finalize, hw]
  · intro hne
    cases op with
    | bid ctx bal amt =>
      by_cases hopen : st.auction_state = AuctionState.Continue
      · by_cases ht : ctx.slot_time ≤ st.endTime
        · cases hs : ctx.sender with
          | Contract c =>
            exact absurd (by simp [applyOp, auction_bid, hopen, ht, hs]) hne
          | Account a =>
            by_cases hamt : u64_sub bal amt < amt
            · refine ⟨hopen, ctx, bal, amt, a, rfl, hs, hamt, ?_⟩
              cases hb : st.highest_bidder <;>
                simp [applyOp, auction_bid, hopen, ht, hs, hamt, hb]
            · exact absurd (by simp [applyOp, auction_bid, hopen, ht, hs, hamt]) hne
        · exact absurd (by simp [applyOp, auction_bid, hopen, ht]) hne
      · exact absurd (by simp [applyOp, auction_bid, hopen]) hne
    | finalize ctx bal =>
      exfalso
      apply hne
      by_cases hopen : st.auction_state = AuctionState.Continue
      · by_cases ht : st.endTime < ctx.slot_time
        · cases hb : st.highest_bidder <;>
            simp [applyOp, auction_finalize, hopen, ht, hb]
        · simp [applyOp, auction_finalize, hopen, ht]
      · simp [applyOp, auction_finalize, hopen]

/-- C7 witness: a bid against an already-sold record leaves the record
literally unchanged. -/
theorem phase_and_bidder_invariant_witness :
    applyOp (Op.bid ⟨Address.Account 1, 0, 0⟩ 10 10)
        ⟨AuctionState.Sold 2, some 2, "item", 1⟩ =
      ⟨AuctionState.Sold 2, some 2, "item", 1⟩ :=
  (phase_and_bidder_invariant (Op.bid ⟨Address.Account 1, 0, 0⟩ 10 10)
    ⟨AuctionState.Sold 2, some 2, "item", 1⟩).2.1 2 rfl

/-- C8: whenever `auction_bid` or `auction_finalize` returns an error, the
returned record equals the input record and no transfer is requested: every
guard failure aborts the call before any mutation or effect. -/
theorem error_no_mutation (ctx : ReceiveContext) (st : State) (balance amount : Nat) :
    (∀ e, (auction_bid ctx st balance amount).2.2 = Result.error e →
      (auction_bid ctx st balance amount).1 = st ∧
      (auction_bid ctx st balance amount).2.1 = []) ∧
    (∀ e, (auction_finalize ctx st balance).2.2 = Result.error e →
      (auction_finalize ctx st balance).1 = st ∧
      (auction_finalize ctx st balance).2.1 = []) := by
  constructor
  · intro e h
    by_cases hopen : st.auction_state = AuctionState.Continue
    · by_cases ht : ctx.slot_time ≤ st.endTime
      · cases hs : ctx.sender with
        | Contract c => simp [auction_bid, hopen, ht, hs]
        | Account a =>
          by_cases hamt : u64_sub balance amount < amount
          · exfalso
            cases hb : st.highest_bidder <;>
              simp [auction_bid, hopen, ht, hs, hamt, hb] at h
          · simp [auction_bid, hopen, ht, hs, hamt]
      · simp [auction_bid, hopen, ht]
    · simp [auction_bid, hopen]
  · intro e h
    by_cases hopen : st.auction_state = AuctionState.Continue
    · by_cases ht : st.endTime < ctx.slot_time
      · exfalso
        cases hb : st.highest_bidder <;>
          simp [auction_finalize, hopen, ht, hb] at h
      · simp [auction_finalize, hopen, ht]
    · simp [auction_finalize, hopen]

/-- C8 witness: a bid rejected with `OnlyAccount` (contract sender) leaves the
record unchanged and requests no transfer. -/
theorem error_no_mutation_witness :
    (auction_bid ⟨Address.Contract 0, 0, 0⟩
        ⟨AuctionState.Continue, some 3, "item", 9⟩ 5 5).1 =
      ⟨AuctionState.Continue, some 3, "item", 9⟩ ∧
    (auction_bid ⟨Address.Contract 0, 0, 0⟩
        ⟨AuctionState.Continue, some 3, "item", 9⟩ 5 5).2.1 = [] :=
  (error_no_mutation ⟨Address.Contract 0, 0, 0⟩
    ⟨AuctionState.Continue, some 3, "item", 9⟩ 5 5).1
    BidError.OnlyAccount (by decide)

/-- C9: finalizing an open record with no highest bidder past the close time
returns success, requests no transfer and leaves the record completely
unchanged — the phase stays `Continue`, so iterating finalize any number of
times leaves the record fixed and every such call succeeds. -/
theorem finalize_no_bidder_noop (ctx : ReceiveContext) (st : State) (balance : Nat)
    (hopen : st.auction_state = AuctionState.Continue)
    (hnone : st.highest_bidder = none)
    (htime : st.endTime < ctx.slot_time) :
    auction_finalize ctx st balance = (st, [], Result.ok) ∧
    ∀ n, (fun s => (auction_finalize ctx s balance).1)^[n] st = st := by
  have h1 : auction_finalize ctx st balance = (st, [], Result.ok) := by
    simp [auction_finalize, hopen, htime, hnone]
  refine ⟨h1, ?_⟩
  intro n
  induction n with
  | zero => rfl
  | succ k ih => simp [Function.iterate_succ_apply', ih, h1]

/-- C9 witness: a bidless auction closed at time 1 finalized at slot time 2
returns success with no transfer and an unchanged record. -/
theorem finalize_no_bidder_noop_witness :
    auction_finalize ⟨Address.Account 0, 2, 7⟩
        ⟨AuctionState.Continue, none, "item", 1⟩ 0 =
      (⟨AuctionState.Continue, none, "item", 1⟩, [], Result.ok) :=
  (finalize_no_bidder_noop ⟨Address.Account 0, 2, 7⟩
    ⟨AuctionState.Continue, none, "item", 1⟩ 0 rfl rfl (by decide)).1

/-- C10: under the host-provided precondition that the contract balance
already contains the attached amount (`amount ≤ balance`, with `balance` a
`u64`), the subtraction `balance - amount` computing the pre-bid escrowed
balance in `auction_bid` never underflows: the wrapping 64-bit result is the
exact difference, and adding the amount back recovers the balance. -/
theorem balance_sub_no_underflow (balance amount : Nat)
    (hle : amount ≤ balance) (hu : balance < U64_MOD) :
    u64_sub balance amount = balance - amount ∧
    u64_sub balance amount + amount = balance := by
  have h := u64_sub_eq_sub balance amount hle hu
  exact ⟨h, by omega⟩

/-- C10 witness: with balance 15 and attached amount 10, the pre-bid escrowed
balance is exactly 5. -/
theorem balance_sub_no_underflow_witness :
    u64_sub 15 10 = 15 - 10 ∧ u64_sub 15 10 + 10 = 15 :=
  balance_sub_no_underflow 15 10 (by decide) (by decide)

end Auction
